import Mathlib

/-!
Verification of the AirBnB data-processing pipeline (filter / statistics /
host ranking) against its natural-language specification.

The JavaScript source (src/AirBnBDataHandler.js, src/utils.js) is shallowly
embedded:
* JS numbers are modelled as exact rationals (`ℚ`); the special values
  NaN / Infinity / -Infinity, which the pipeline can produce via `0/0` and
  division by a zero room count, are modelled by the inductive `JsNum`.
  Binary-double rounding of decimal literals and the negative zero `-0` are
  not modelled: finite values are exact rationals.  Because Batteries marks
  the field operations on `Rat` `@[irreducible]`, the embedding computes
  with kernel-reducible counterparts `qadd` / `qdiv` built on `mkRat`; the
  bridge lemmas `qadd_eq_add` and `qdiv_eq_div` show they agree with the
  mathematical operations.
* A raw CSV record maps each of the six field names the pipeline reads to
  an optional string (`none` = the key is absent, i.e. `undefined` in JS).
* Code that can throw (accessing `.replace` on `undefined` inside
  `parsePrice`) is modelled in the `Except Unit` monad.
-/

/-! ## Kernel-reducible rational arithmetic -/

/-- Addition on `ℚ` via `mkRat`, definitionally computable by the kernel
(`Rat.add` itself is `@[irreducible]`). -/
def qadd (a b : ℚ) : ℚ :=
  mkRat (a.num * b.den + b.num * a.den) (a.den * b.den)

/-- Division on `ℚ` via `mkRat`, definitionally computable by the kernel;
agrees with `a / b` including the `b = 0 ↦ 0` junk-value convention. -/
def qdiv (a b : ℚ) : ℚ :=
  mkRat (Int.sign b.num * a.num * b.den) (a.den * b.num.natAbs)

/-! ## Scalar coercion (src/utils.js) -/

/-- Characters treated as whitespace by the JS numeric parsers
(ECMAScript WhiteSpace and LineTerminator: ASCII whitespace, NBSP, the
Unicode Zs spaces, the line and paragraph separators, and the BOM). -/
def isJsSpace (c : Char) : Bool :=
  c == ' ' || c == '\t' || c == '\n' || c == '\r' || c == '\x0b' || c == '\x0c' ||
  c == '\u00A0' || c == '\u1680' ||
  (decide (0x2000 ≤ c.toNat) && decide (c.toNat ≤ 0x200A)) ||
  c == '\u2028' || c == '\u2029' || c == '\u202F' || c == '\u205F' ||
  c == '\u3000' || c == '\uFEFF'

/-- Numeric value of a list of decimal digit characters. -/
def natOfDigits (ds : List Char) : ℕ :=
  ds.foldl (fun n c => n * 10 + (c.toNat - 48)) 0

/-- ToString coercion applied by JS before parsing and before property
lookup: `undefined` prints as the string "undefined". -/
def jsStringOf (v : Option String) : String :=
  match v with
  | none => "undefined"
  | some s => s

/-- Model of the JS builtin `parseInt(s, 10)`: skip leading whitespace,
read an optional sign and then the longest run of decimal digits; `none`
models a NaN result (no digits found). -/
def parseIntCore (s : String) : Option ℤ :=
  let cs := s.data.dropWhile isJsSpace
  let sgnNeg : Bool := match cs with
    | c :: _ => c == '-'
    | [] => false
  let cs := match cs with
    | '+' :: t => t
    | '-' :: t => t
    | l => l
  let ds := cs.takeWhile Char.isDigit
  if ds.isEmpty then none
  else some (if sgnNeg then -(natOfDigits ds : ℤ) else (natOfDigits ds : ℤ))

/-- `parseInt` as applied to a possibly-absent record field. -/
def parseIntJS (v : Option String) : Option ℤ :=
  parseIntCore (jsStringOf v)

/-- `parseNumber` from src/utils.js: `parseInt(str, 10)` with a default for
a NaN result. -/
def parseNumber (v : Option String) (defaultValue : ℤ) : ℤ :=
  (parseIntJS v).getD defaultValue

/-- The character class kept by `parsePrice`'s regex replace
`/[^0-9.-]+/g`. -/
def isPriceChar (c : Char) : Bool :=
  c.isDigit || c == '.' || c == '-'

/-- The `priceStr.replace(/[^0-9.-]+/g, '')` step of `parsePrice`. -/
def cleanPrice (s : String) : String :=
  String.mk (s.data.filter isPriceChar)

/-- Model of the JS builtin `parseFloat` restricted to the inputs
`parsePrice` feeds it (strings of digits, dots and minus signs; the
`Infinity` literal and exponents cannot survive the character strip):
longest valid prefix consisting of an optional sign, integer digits and an
optional fraction; `none` models NaN (no digits in the prefix). -/
def parseFloatCore (s : String) : Option ℚ :=
  let cs := s.data.dropWhile isJsSpace
  let sgnNeg : Bool := match cs with
    | c :: _ => c == '-'
    | [] => false
  let cs := match cs with
    | '+' :: t => t
    | '-' :: t => t
    | l => l
  let ds := cs.takeWhile Char.isDigit
  let rest := cs.dropWhile Char.isDigit
  let fs := match rest with
    | '.' :: t => t.takeWhile Char.isDigit
    | _ => []
  if ds.isEmpty && fs.isEmpty then none
  else
    let numer : ℤ := natOfDigits ds * 10 ^ fs.length + natOfDigits fs
    some (mkRat (if sgnNeg then -numer else numer) (10 ^ fs.length))

/-- `parsePrice` from src/utils.js:
`parseFloat(priceStr.replace(/[^0-9.-]+/g, '')) || 0`.
The `|| 0` turns a NaN parse (and a zero or negative-zero parse) into
`0`. -/
def parsePrice (s : String) : ℚ :=
  match parseFloatCore (cleanPrice s) with
  | none => 0
  | some q => q

/-- `parsePrice(listing.price)` where the field may be absent: calling
`.replace` on `undefined` throws a TypeError, modelled as
`Except.error`. -/
def parsePriceJS (v : Option String) : Except Unit ℚ :=
  match v with
  | none => Except.error ()
  | some s => Except.ok (parsePrice s)

/-! ## JS number specials and `toFixed(2)` -/

/-- A JS number as produced by this pipeline: NaN, the two infinities, or
a finite (exact rational) value. -/
inductive JsNum where
  | nan : JsNum
  | inf : JsNum
  | ninf : JsNum
  | fin : ℚ → JsNum
deriving DecidableEq

/-- IEEE addition on `JsNum` (signed zero not modelled). -/
def jsAdd : JsNum → JsNum → JsNum
  | .nan, _ => .nan
  | _, .nan => .nan
  | .inf, .ninf => .nan
  | .ninf, .inf => .nan
  | .inf, _ => .inf
  | _, .inf => .inf
  | .ninf, _ => .ninf
  | _, .ninf => .ninf
  | .fin p, .fin q => .fin (qadd p q)

/-- IEEE division on `JsNum`: `0/0 = NaN`, `p/0 = ±Infinity` for `p ≠ 0`
(divisor `-0` not modelled, so the positive-zero branch is taken),
`p/±Infinity = 0`. -/
def jsDiv : JsNum → JsNum → JsNum
  | .nan, _ => .nan
  | _, .nan => .nan
  | .inf, .inf => .nan
  | .inf, .ninf => .nan
  | .ninf, .inf => .nan
  | .ninf, .ninf => .nan
  | .inf, .fin q => if q < 0 then .ninf else .inf
  | .ninf, .fin q => if q < 0 then .inf else .ninf
  | .fin _, .inf => .fin 0
  | .fin _, .ninf => .fin 0
  | .fin p, .fin q =>
      if q = 0 then (if p = 0 then .nan else if p < 0 then .ninf else .inf)
      else .fin (qdiv p q)

/-- The decimal digit characters, indexed by value. -/
def digitChar (n : ℕ) : Char :=
  ['0', '1', '2', '3', '4', '5', '6', '7', '8', '9'].getD n '*'

/-- Decimal digits of a natural number, most significant last; fuel-based
so the kernel can evaluate it. -/
def natDigitsAux : ℕ → ℕ → List Char
  | 0, _ => []
  | fuel + 1, n =>
      if n < 10 then [digitChar n]
      else natDigitsAux fuel (n / 10) ++ [digitChar (n % 10)]

/-- Decimal digit string of a natural number, most significant first. -/
def natDigits (n : ℕ) : List Char :=
  natDigitsAux (n + 1) n

/-- Pad a digit string on the left with zeros to length at least 3, so a
decimal point can be placed before the last two digits. -/
def padTo3 (l : List Char) : List Char :=
  if l.length < 3 then List.replicate (3 - l.length) '0' ++ l else l

/-- `⌊|q| * 100 + 1/2⌋` computed with natural-number division: the integer
whose last two decimal digits are the two fractional digits chosen by
`toFixed(2)` (nearest, ties away from zero after the sign split). -/
def fixedScaled (q : ℚ) : ℕ :=
  (200 * q.num.natAbs + q.den) / (2 * q.den)

/-- Strip the trailing decimal zeros of a natural number, fuel-based:
returns the stripped value together with the count of zeros removed (the
ECMAScript minimal-`k` choice for an integer value). -/
def stripZeros : ℕ → ℕ → ℕ × ℕ
  | 0, m => (m, 0)
  | fuel + 1, m =>
      if m % 10 == 0 && !(m == 0) then
        let p := stripZeros fuel (m / 10)
        (p.1, p.2 + 1)
      else (m, 0)

/-- ECMAScript `Number::toString` (base 10) for a nonnegative value of
magnitude ≥ 10^21, which always prints in exponential notation
(`d.ddd…e+NN`).  Every double of that magnitude is an integer
(2^53 < 10^21), so the ECMA digit string `s` and exponent `n` are obtained
exactly from the integer value by stripping trailing zeros; non-integer
rationals of such magnitude correspond to no double and are truncated. -/
def jsToStringBig (m : ℕ) : List Char :=
  let p := stripZeros m m
  let ds := natDigits p.1
  let ex := natDigits (ds.length + p.2 - 1)
  match ds with
  | [] => ['0']
  | d :: rest =>
      d :: ((if rest.isEmpty then [] else '.' :: rest) ++ 'e' :: '+' :: ex)

/-- `Number.prototype.toFixed(2)` on a finite value: after the sign split,
a magnitude of at least 10^21 falls back to `ToString` (exponential
notation, e.g. `(1e22).toFixed(2) = "1e+22"`); otherwise the scaled and
rounded digits with a decimal point before the last two.  The magnitude
test `|q| ≥ 10^21` is the cross-multiplied `10^21 * q.den ≤ |q.num|`. -/
def toFixed2Q (q : ℚ) : String :=
  if 10 ^ 21 * q.den ≤ q.num.natAbs then
    String.mk ((if q < 0 then ['-'] else []) ++
      jsToStringBig (q.num.natAbs / q.den))
  else
    let ds := padTo3 (natDigits (fixedScaled q))
    String.mk ((if q < 0 then ['-'] else []) ++
      ds.take (ds.length - 2) ++ '.' :: ds.drop (ds.length - 2))

/-- `toFixed(2)` on a possibly non-finite JS number. -/
def toFixedJs : JsNum → String
  | .nan => "NaN"
  | .inf => "Infinity"
  | .ninf => "-Infinity"
  | .fin q => toFixed2Q q

/-- Boolean check that a string consists of one '.' with exactly two
characters after it: the shape "formatted to exactly two fractional
digits". -/
def hasTwoFracDigits (s : String) : Bool :=
  (s.data.count '.' == 1) && (s.data.reverse.indexOf '.' == 2)

/-- Whether a JS number is finite with magnitude below the 10^21 cutoff at
which `toFixed` falls back to exponential `ToString` notation. -/
def finBelowCutoff : JsNum → Bool
  | .fin q => decide (q.num.natAbs < 10 ^ 21 * q.den)
  | _ => false

/-! ## Data model -/

/-- A Raw Record: the six fields the pipeline reads from a CSV row, each
possibly absent (`none` = `undefined` in JS).  No other key is ever
read. -/
structure Record where
  price : Option String
  bedrooms : Option String
  review_scores_rating : Option String
  host_id : Option String
  host_name : Option String
  id : Option String
deriving DecidableEq

/-- The six optional numeric bounds of the filter criteria. -/
structure Criteria where
  minPrice : Option ℚ
  maxPrice : Option ℚ
  minRooms : Option ℚ
  maxRooms : Option ℚ
  minReviewScore : Option ℚ
  maxReviewScore : Option ℚ
deriving DecidableEq

/-- The statistics object `{totalListings, averagePricePerRoom}`. -/
structure Statistics where
  totalListings : ℕ
  averagePricePerRoom : String
deriving DecidableEq

/-- One host-ranking entry `{hostId, hostName, listingsCount}`; the two
strings are the raw field values and may be absent (`undefined`). -/
structure HostRankingEntry where
  hostId : Option String
  hostName : Option String
  listingsCount : ℕ
deriving DecidableEq

/-- `rooms` derived field: `parseNumber(listing.bedrooms, 1)`. -/
def roomsOf (r : Record) : ℤ :=
  parseNumber r.bedrooms 1

/-- `reviewScore` derived field:
`parseNumber(listing.review_scores_rating)` (default 0). -/
def reviewScoreOf (r : Record) : ℤ :=
  parseNumber r.review_scores_rating 0

/-! ## Listing filter (filterListings) -/

/-- One `min` clause `(!criteria.bound || value >= criteria.bound)`: an
absent bound and a bound of numeric zero (both falsy) impose no
constraint. -/
def passMin (b : Option ℚ) (v : ℚ) : Bool :=
  match b with
  | none => true
  | some x => if x = 0 then true else decide (x ≤ v)

/-- One `max` clause `(!criteria.bound || value <= criteria.bound)`. -/
def passMax (b : Option ℚ) (v : ℚ) : Bool :=
  match b with
  | none => true
  | some x => if x = 0 then true else decide (v ≤ x)

/-- The six-clause conjunction of the filter callback. -/
def listingPasses (c : Criteria) (price : ℚ) (rooms score : ℤ) : Bool :=
  passMin c.minPrice price && passMax c.maxPrice price &&
  passMin c.minRooms (rooms : ℚ) && passMax c.maxRooms (rooms : ℚ) &&
  passMin c.minReviewScore (score : ℚ) && passMax c.maxReviewScore (score : ℚ)

/-- The filter callback: derives `price`, `rooms`, `reviewScore` and tests
the six bounds; throws if `listing.price` is absent. -/
def filterCallback (c : Criteria) (r : Record) : Except Unit Bool :=
  match parsePriceJS r.price with
  | .error e => .error e
  | .ok price => .ok (listingPasses c price (roomsOf r) (reviewScoreOf r))

/-- `filterListings`: `this.data.filter(callback)`, callbacks evaluated
left to right, a throw aborting the whole call. -/
def filterListings (data : List Record) (c : Criteria) : Except Unit (List Record) :=
  match data with
  | [] => .ok []
  | r :: rs =>
    match filterCallback c r with
    | .error e => .error e
    | .ok b =>
      match filterListings rs c with
      | .error e => .error e
      | .ok rest => .ok (if b then r :: rest else rest)

/-! ## Statistics aggregator (computeStatistics) -/

/-- The per-record term `price / rooms` of the reduce, for a record whose
`price` field is present. -/
def ratioOf (r : Record) : JsNum :=
  jsDiv (JsNum.fin (parsePrice (r.price.getD ""))) (JsNum.fin ((roomsOf r : ℤ) : ℚ))

/-- The `reduce((acc, listing) => acc + price / rooms, 0)` loop; throws at
the first record with no `price` field. -/
def sumRatios : List Record → JsNum → Except Unit JsNum
  | [], acc => .ok acc
  | r :: rs, acc =>
    match parsePriceJS r.price with
    | .error e => .error e
    | .ok p =>
        sumRatios rs (jsAdd acc (jsDiv (JsNum.fin p) (JsNum.fin ((roomsOf r : ℤ) : ℚ))))

/-- `computeStatistics`: count, and the reduce-sum divided by the count
(`0/0 = NaN` on the empty subset), rendered with `toFixed(2)`. -/
def computeStatistics (subset : List Record) : Except Unit Statistics :=
  match sumRatios subset (JsNum.fin 0) with
  | .error e => .error e
  | .ok s =>
      .ok ⟨subset.length, toFixedJs (jsDiv s (JsNum.fin (subset.length : ℚ)))⟩

/-! ## Host ranking (computeHostRanking) -/

/-- The property key used for `acc[hostId]`: JS coerces `undefined` to the
string "undefined". -/
def jsKey (v : Option String) : String :=
  jsStringOf v

/-- Own property names of `Object.prototype`.  For a `host_id` equal to
one of these, the `if (!acc[hostId])` check in the reduce sees the
inherited member (truthy), so no own entry is ever created: the
`+= 1` update lands on the inherited object and never reaches
`Object.values`. -/
def protoKeys : List String :=
  ["constructor", "hasOwnProperty", "isPrototypeOf", "propertyIsEnumerable",
   "toLocaleString", "toString", "valueOf", "__defineGetter__",
   "__defineSetter__", "__lookupGetter__", "__lookupSetter__", "__proto__"]

/-- One step of the grouping reduce: create the entry (count 0) on first
encounter, then increment. -/
def hostStep (acc : List (String × HostRankingEntry)) (r : Record) :
    List (String × HostRankingEntry) :=
  let k := jsKey r.host_id
  if k ∈ protoKeys then acc
  else if acc.any (fun p => p.1 == k) then
    acc.map (fun p =>
      if p.1 == k then (p.1, ⟨p.2.hostId, p.2.hostName, p.2.listingsCount + 1⟩) else p)
  else
    acc ++ [(k, ⟨r.host_id, r.host_name, 1⟩)]

/-- The `hostMap` accumulator object, as an association list in property
insertion order. -/
def buildHostMap (subset : List Record) : List (String × HostRankingEntry) :=
  subset.foldl hostStep []

/-- Whether a string is a canonical array-index property key (the class of
keys ECMAScript enumerates first, in ascending numeric order): a canonical
decimal numeral below 2^32 - 1. -/
def isCanonicalIndex (s : String) : Bool :=
  !s.data.isEmpty && s.data.all Char.isDigit &&
  (s == "0" || !(s.data.head? == some '0')) &&
  natOfDigits s.data ≤ 4294967294

/-- Numeric value of an index key. -/
def keyNat (s : String) : ℕ :=
  natOfDigits s.data

/-- Ascending numeric order on index keys. -/
def keyAscOrder (p q : String × HostRankingEntry) : Prop :=
  keyNat p.1 ≤ keyNat q.1

instance : DecidableRel keyAscOrder :=
  fun _ _ => Nat.decLe _ _

/-- `Object.values(hostMap)`: array-index keys in ascending numeric order
first, then the remaining string keys in insertion order. -/
def objectValues (m : List (String × HostRankingEntry)) : List HostRankingEntry :=
  (List.insertionSort keyAscOrder (m.filter (fun p => isCanonicalIndex p.1)) ++
    m.filter (fun p => !(isCanonicalIndex p.1))).map Prod.snd

/-- The comparator `(a, b) => b.listingsCount - a.listingsCount`, as the
order it induces: `a` precedes `b` when the comparator is `≤ 0`. -/
def hostDescOrder (a b : HostRankingEntry) : Prop :=
  b.listingsCount ≤ a.listingsCount

instance : DecidableRel hostDescOrder :=
  fun _ _ => Nat.decLe _ _

instance : IsTotal HostRankingEntry hostDescOrder :=
  ⟨fun a b => Nat.le_total b.listingsCount a.listingsCount⟩

instance : IsTrans HostRankingEntry hostDescOrder :=
  ⟨fun _ _ _ h1 h2 => le_trans h2 h1⟩

/-- `computeHostRanking`: group by `host_id`, take `Object.values`, and
sort descending by count with the (ES2019-stable) array sort, modelled by
the stable `insertionSort`. -/
def computeHostRanking (subset : List Record) : List HostRankingEntry :=
  List.insertionSort hostDescOrder (objectValues (buildHostMap subset))

/-! ## The chained handler state -/

/-- The mutable fields of the `AirBnBDataHandler` instance (`statistics`
starts as the empty object, modelled `none`). -/
structure HandlerState where
  data : List Record
  filteredData : List Record
  statistics : Option Statistics
  hostRanking : List HostRankingEntry
deriving DecidableEq

/-- `filterListings(criteria)`: recompute `filteredData` from the full
loaded `data`; on a throw no field is assigned. -/
def filterListingsOp (c : Criteria) (st : HandlerState) : Except Unit HandlerState :=
  match filterListings st.data c with
  | .error e => .error e
  | .ok l => .ok { st with filteredData := l }

/-- `computeStatistics()` as a state operation. -/
def computeStatisticsOp (st : HandlerState) : Except Unit HandlerState :=
  match computeStatistics st.filteredData with
  | .error e => .error e
  | .ok s => .ok { st with statistics := some s }

/-- `computeHostRanking()` as a state operation (cannot throw). -/
def computeHostRankingOp (st : HandlerState) : HandlerState :=
  { st with hostRanking := computeHostRanking st.filteredData }

deriving instance DecidableEq for Except

/-! ## Concrete test data -/

/-- First record of Scenario A from the spec. -/
def recA : Record :=
  ⟨some "$100", some "2", some "4.5", some "h1", some "Alice", none⟩

/-- Second record of Scenario A from the spec. -/
def recB : Record :=
  ⟨some "$200", some "4", some "3.0", some "h1", some "Alice", none⟩

/-- A third record owned by a different host. -/
def recC : Record :=
  ⟨some "$300", some "3", none, some "h2", some "Cara", none⟩

/-- The Scenario A criteria `{minPrice: 150}`. -/
def crit6 : Criteria :=
  ⟨some 150, none, none, none, none, none⟩

/-- The all-absent criteria object. -/
def emptyCriteria : Criteria :=
  ⟨none, none, none, none, none, none⟩

/-- A record whose `host_id` "2" is a canonical array-index key. -/
def recHost2 : Record :=
  ⟨some "$10", some "1", none, some "2", some "Bob", none⟩

/-- A record whose `host_id` "1" is a canonical array-index key. -/
def recHost1 : Record :=
  ⟨some "$10", some "1", none, some "1", some "Ann", none⟩

/-- A record whose bedrooms field parses to zero rooms. -/
def recZeroRooms : Record :=
  ⟨some "$100", some "0", none, some "h1", some "A", none⟩

/-- A record whose price parses to 10^22, past the `toFixed` exponential
cutoff. -/
def recBigPrice : Record :=
  ⟨some "$10000000000000000000000", some "1", none, some "h9", some "Hana", none⟩

/-- A record carrying no keys at all, in particular no `price`. -/
def recNoPrice : Record :=
  ⟨none, none, none, none, none, none⟩

/-- A freshly loaded handler state over Scenario A's records. -/
def st0 : HandlerState :=
  ⟨[recA, recB], [], none, []⟩

/-- The state after `filterListings(crit6)` on `st0`. -/
def st1 : HandlerState :=
  ⟨[recA, recB], [recB], none, []⟩

/-- A state with the same loaded data as `st0` but different derived
fields. -/
def stAlt : HandlerState :=
  ⟨[recA, recB], [recA], some ⟨0, "NaN"⟩, [⟨none, none, 7⟩]⟩

/-! ## Bridge lemmas: the kernel-reducible arithmetic agrees with `ℚ` -/

theorem qadd_eq_add (a b : ℚ) : qadd a b = a + b := by
  rw [qadd, Rat.mkRat_eq_divInt, Rat.divInt_eq_div]
  have ha : ((a.den : ℚ)) ≠ 0 := Nat.cast_ne_zero.mpr a.den_ne_zero
  have hb : ((b.den : ℚ)) ≠ 0 := Nat.cast_ne_zero.mpr b.den_ne_zero
  conv_rhs => rw [← Rat.num_div_den a, ← Rat.num_div_den b]
  push_cast
  field_simp

theorem qdiv_eq_div (a b : ℚ) : qdiv a b = a / b := by
  rcases eq_or_ne b 0 with hb | hb
  · subst hb
    simp [qdiv, Rat.mkRat_eq_divInt]
  · have hnum : b.num ≠ 0 := Rat.num_ne_zero.mpr hb
    have ha : ((a.den : ℚ)) ≠ 0 := Nat.cast_ne_zero.mpr a.den_ne_zero
    have hbd : ((b.den : ℚ)) ≠ 0 := Nat.cast_ne_zero.mpr b.den_ne_zero
    have hbq : ((b.num : ℚ)) ≠ 0 := Int.cast_ne_zero.mpr hnum
    rw [qdiv, Rat.mkRat_eq_divInt, Rat.divInt_eq_div]
    conv_rhs => rw [← Rat.num_div_den a, ← Rat.num_div_den b]
    rcases hnum.lt_or_lt with h | h
    · have hq : ((b.num : ℚ)) < 0 := by exact_mod_cast h
      have hsgn : Int.sign b.num = -1 := Int.sign_eq_neg_one_of_neg h
      push_cast [hsgn, Int.cast_natAbs]
      rw [abs_of_neg hq]
      field_simp
    · have hq : (0 : ℚ) < (b.num : ℚ) := by exact_mod_cast h
      have hsgn : Int.sign b.num = 1 := Int.sign_eq_one_of_pos h
      push_cast [hsgn, Int.cast_natAbs]
      rw [abs_of_pos hq]
      field_simp

/-! ## C7: parsePrice -/

/-- C7: `parsePrice` strips every character that is not a digit, '.' or
'-', parses the remainder as a floating-point number, and returns 0 when
that parse is NaN; `parsePrice("$1,234.50") = 1234.50`,
`parsePrice("") = 0`; the result is total on strings (never NaN) and
deterministic. -/
theorem parsePrice_spec :
    (∀ s : String, (cleanPrice s).data = s.data.filter isPriceChar) ∧
    (∀ s : String, ∀ c ∈ (cleanPrice s).data, c.isDigit ∨ c = '.' ∨ c = '-') ∧
    parsePrice "$1,234.50" = 1234.5 ∧
    parsePrice "" = 0 ∧
    (∀ s : String, parseFloatCore (cleanPrice s) = none → parsePrice s = 0) ∧
    (∀ s : String, parsePrice s = parsePrice s) := by
  refine ⟨fun s => rfl, ?_, ?_, by decide, ?_, fun s => rfl⟩
  · intro s c hc
    have h := List.mem_filter.mp hc
    have h2 := h.2
    simp only [isPriceChar, Bool.or_eq_true, beq_iff_eq] at h2
    tauto
  · have h : parsePrice "$1,234.50" = mkRat 2469 2 := by decide
    rw [h, Rat.mkRat_eq_divInt, Rat.divInt_eq_div]
    norm_num
  · intro s h
    simp [parsePrice, h]

/-- Witness for C7: the hypothesis-bearing conjunct instantiated at the
unparseable string "abc". -/
theorem parsePrice_spec_witness :
    parseFloatCore (cleanPrice "abc") = none ∧ parsePrice "abc" = 0 :=
  ⟨by decide, parsePrice_spec.2.2.2.2.1 "abc" (by decide)⟩

/-! ## C3: zero rooms -/

/-- C3 counterexample: a record whose bedrooms field is the text "0"
derives `rooms = 0`, so the per-record division `price / rooms` in
`computeStatistics` is a division by zero (yielding Infinity, not an
error, in JS). -/
theorem roomsOf_zero_counterexample :
    roomsOf recZeroRooms = 0 ∧
    ratioOf recZeroRooms = JsNum.inf := by
  exact ⟨by decide, by decide⟩

/-- C3 amended: the fallback default of `parseNumber(bedrooms, 1)` is 1,
never 0, but the parsed value itself is 0 exactly when the bedrooms text
parses to integer 0; for a record whose rooms value is nonzero the
division is finite. -/
theorem roomsOf_eq_zero_iff :
    (∀ v : Option String, parseNumber v 1 = 0 ↔ parseIntJS v = some 0) ∧
    (∀ v : Option String, parseIntJS v = none → parseNumber v 1 = 1) ∧
    (∀ r : Record, roomsOf r ≠ 0 → ∃ q : ℚ, ratioOf r = JsNum.fin q) := by
  refine ⟨?_, ?_, ?_⟩
  · intro v
    unfold parseNumber
    cases h : parseIntJS v with
    | none => simp
    | some n => simp
  · intro v h
    simp [parseNumber, h]
  · intro r h
    have hz : ((roomsOf r : ℤ) : ℚ) ≠ 0 := by
      simpa using h
    exact ⟨qdiv (parsePrice (r.price.getD "")) ((roomsOf r : ℤ) : ℚ),
      by simp [ratioOf, jsDiv, hz]⟩

/-- Witness for C3 (amended): instantiations of the hypothesis-bearing
conjuncts at concrete inputs. -/
theorem roomsOf_eq_zero_iff_witness :
    (parseIntJS (some "x") = none ∧ parseNumber (some "x") 1 = 1) ∧
    (roomsOf recB ≠ 0 ∧ ∃ q : ℚ, ratioOf recB = JsNum.fin q) :=
  ⟨⟨by decide, roomsOf_eq_zero_iff.2.1 (some "x") (by decide)⟩,
   ⟨by decide, roomsOf_eq_zero_iff.2.2 recB (by decide)⟩⟩

/-! ## C6: Scenario A -/

/-- C6: on Scenario A's two records with criteria `{minPrice: 150}`, the
filter keeps exactly the second record, statistics are
`{totalListings: 1, averagePricePerRoom: "50.00"}`, and the ranking is the
single entry for host "h1"/"Alice" with one listing. -/
theorem scenarioA :
    filterListings [recA, recB] crit6 = .ok [recB] ∧
    computeStatistics [recB] = .ok ⟨1, "50.00"⟩ ∧
    computeHostRanking [recB] = [⟨some "h1", some "Alice", 1⟩] := by
  exact ⟨by decide, by decide, by decide⟩

/-! ## Filter congruence and C5 / C8 / C4 -/

/-- Two criteria whose callbacks agree produce identical filter runs. -/
theorem filterListings_congr (data : List Record) (c1 c2 : Criteria)
    (h : ∀ r, filterCallback c1 r = filterCallback c2 r) :
    filterListings data c1 = filterListings data c2 := by
  induction data with
  | nil => rfl
  | cons r rs ih => simp only [filterListings, h r, ih]

/-- Callback congruence reduces to the pure six-clause test. -/
theorem filterCallback_congr (c1 c2 : Criteria)
    (h : ∀ (p : ℚ) (rm sc : ℤ), listingPasses c1 p rm sc = listingPasses c2 p rm sc)
    (r : Record) : filterCallback c1 r = filterCallback c2 r := by
  unfold filterCallback parsePriceJS
  cases r.price <;> simp [h]

/-- C5: a bound that is present but equal to numeric zero filters exactly
like an absent bound, for each of the six bounds (the falsy-zero
quirk). -/
theorem zero_bound_eq_absent (data : List Record) (c : Criteria) :
    filterListings data { c with minPrice := some 0 } =
      filterListings data { c with minPrice := none } ∧
    filterListings data { c with maxPrice := some 0 } =
      filterListings data { c with maxPrice := none } ∧
    filterListings data { c with minRooms := some 0 } =
      filterListings data { c with minRooms := none } ∧
    filterListings data { c with maxRooms := some 0 } =
      filterListings data { c with maxRooms := none } ∧
    filterListings data { c with minReviewScore := some 0 } =
      filterListings data { c with minReviewScore := none } ∧
    filterListings data { c with maxReviewScore := some 0 } =
      filterListings data { c with maxReviewScore := none } := by
  refine ⟨?_, ?_, ?_, ?_, ?_, ?_⟩ <;>
    exact filterListings_congr data _ _ (filterCallback_congr _ _
      (fun p rm sc => by simp [listingPasses, passMin, passMax]))

/-- With the all-absent criteria and a present price field the callback
accepts. -/
theorem filterCallback_empty (r : Record) (h : r.price.isSome) :
    filterCallback emptyCriteria r = .ok true := by
  obtain ⟨s, hs⟩ := Option.isSome_iff_exists.mp h
  simp [filterCallback, parsePriceJS, hs, listingPasses, passMin, passMax, emptyCriteria]

/-- C8 (amended): filtering with the all-absent criteria returns every
record unchanged and in order, provided every record carries a `price`
field (the price coercion runs, and throws on a missing field, before the
absent bounds are consulted). -/
theorem identity_filter (data : List Record) (h : ∀ r ∈ data, r.price.isSome) :
    filterListings data emptyCriteria = .ok data := by
  induction data with
  | nil => rfl
  | cons r rs ih =>
    have hr : r.price.isSome := h r (by simp)
    have hrest := ih (fun x hx => h x (by simp [hx]))
    simp [filterListings, filterCallback_empty r hr, hrest]

/-- Witness for C8 (amended): the identity filter on Scenario A's
records. -/
theorem identity_filter_witness :
    (∀ r ∈ [recA, recB], r.price.isSome) ∧
    filterListings [recA, recB] emptyCriteria = .ok [recA, recB] :=
  ⟨by decide, identity_filter [recA, recB] (by decide)⟩

/-- C8 counterexample: with a record that has no `price` key, the
all-absent filter throws (error), it does not return the records. -/
theorem identity_filter_counterexample :
    filterListings [recA, recNoPrice] emptyCriteria = .error () ∧
    filterListings [recA, recNoPrice] emptyCriteria ≠
      .ok [recA, recNoPrice] := by
  exact ⟨by decide, by decide⟩

/-- The filter run succeeds whenever every record has a `price` field. -/
theorem filterListings_isOk (records : List Record) (c : Criteria)
    (h : ∀ r ∈ records, r.price.isSome) :
    ∃ l, filterListings records c = .ok l := by
  induction records with
  | nil => exact ⟨[], rfl⟩
  | cons r rs ih =>
    obtain ⟨s, hs⟩ := Option.isSome_iff_exists.mp (h r (by simp))
    obtain ⟨l, hl⟩ := ih (fun x hx => h x (by simp [hx]))
    refine ⟨if listingPasses c (parsePrice s) (roomsOf r) (reviewScoreOf r)
      then r :: l else l, ?_⟩
    simp [filterListings, filterCallback, parsePriceJS, hs, hl]

/-! ## Formatting lemmas for toFixed(2) -/

theorem digitChar_ne_dot (n : ℕ) : digitChar n ≠ '.' := by
  unfold digitChar
  rcases Nat.lt_or_ge n 10 with h | h
  · interval_cases n <;> decide
  · rw [List.getD_eq_default _ _ (by simpa using h)]
    decide

theorem natDigitsAux_ne_dot (fuel : ℕ) : ∀ n, ∀ c ∈ natDigitsAux fuel n, c ≠ '.' := by
  induction fuel with
  | zero =>
    intro n c hc
    simp [natDigitsAux] at hc
  | succ f ih =>
    intro n c hc
    rw [natDigitsAux] at hc
    by_cases h : n < 10
    · rw [if_pos h] at hc
      simp at hc
      subst hc
      exact digitChar_ne_dot n
    · rw [if_neg h] at hc
      rcases List.mem_append.mp hc with h1 | h1
      · exact ih _ c h1
      · simp at h1
        subst h1
        exact digitChar_ne_dot _

theorem padTo3_length (l : List Char) : 3 ≤ (padTo3 l).length := by
  unfold padTo3
  by_cases h : l.length < 3
  · rw [if_pos h]
    simp
    omega
  · rw [if_neg h]
    omega

theorem padTo3_ne_dot (l : List Char) (h : ∀ c ∈ l, c ≠ '.') :
    ∀ c ∈ padTo3 l, c ≠ '.' := by
  unfold padTo3
  by_cases hl : l.length < 3
  · rw [if_pos hl]
    intro c hc
    rcases List.mem_append.mp hc with h1 | h1
    · have := List.eq_of_mem_replicate h1
      subst this
      decide
    · exact h c h1
  · rw [if_neg hl]
    exact h

theorem hasTwoFrac_of_shape (A : List Char) (b1 b2 : Char)
    (hA : '.' ∉ A) (h1 : b1 ≠ '.') (h2 : b2 ≠ '.') :
    hasTwoFracDigits (String.mk (A ++ '.' :: [b1, b2])) = true := by
  unfold hasTwoFracDigits
  have hdata : (String.mk (A ++ '.' :: [b1, b2])).data = A ++ '.' :: [b1, b2] := rfl
  rw [hdata]
  have hcount : (A ++ '.' :: [b1, b2]).count '.' = 1 := by
    rw [List.count_append, List.count_eq_zero.mpr hA]
    simp [List.count_cons, h1, h2, Ne.symm h1, Ne.symm h2]
  have hrev : (A ++ '.' :: [b1, b2]).reverse = b2 :: b1 :: '.' :: A.reverse := by
    simp
  have hidx : (A ++ '.' :: [b1, b2]).reverse.indexOf '.' = 2 := by
    rw [hrev, List.indexOf_cons_ne _ h2, List.indexOf_cons_ne _ h1,
      List.indexOf_cons_self]
  rw [hcount, hidx]
  decide

theorem hasTwoFracDigits_toFixed2Q (q : ℚ) (hcut : q.num.natAbs < 10 ^ 21 * q.den) :
    hasTwoFracDigits (toFixed2Q q) = true := by
  have hcond : ¬ (10 ^ 21 * q.den ≤ q.num.natAbs) := by omega
  have hnd : ∀ c ∈ padTo3 (natDigits (fixedScaled q)), c ≠ '.' :=
    padTo3_ne_dot _ (natDigitsAux_ne_dot _ _)
  have hlen : 3 ≤ (padTo3 (natDigits (fixedScaled q))).length := padTo3_length _
  set ds := padTo3 (natDigits (fixedScaled q)) with hds
  have hdrop : (ds.drop (ds.length - 2)).length = 2 := by
    rw [List.length_drop]
    omega
  obtain ⟨b1, b2, hb⟩ := List.length_eq_two.mp hdrop
  have hsub : ∀ c ∈ ds.drop (ds.length - 2), c ≠ '.' :=
    fun c hc => hnd c (List.drop_subset _ _ hc)
  have hb1 : b1 ≠ '.' := hsub b1 (by rw [hb]; simp)
  have hb2 : b2 ≠ '.' := hsub b2 (by rw [hb]; simp)
  have hA : '.' ∉ ((if q < 0 then ['-'] else []) ++ ds.take (ds.length - 2)) := by
    intro hmem
    rcases List.mem_append.mp hmem with h1 | h1
    · by_cases hq : q < 0
      · rw [if_pos hq] at h1
        simp at h1
      · rw [if_neg hq] at h1
        simp at h1
    · exact hnd _ (List.take_subset _ _ h1) rfl
  have hshape : toFixed2Q q =
      String.mk (((if q < 0 then ['-'] else []) ++ ds.take (ds.length - 2)) ++
        '.' :: [b1, b2]) := by
    unfold toFixed2Q
    rw [if_neg hcond, ← hds, ← hb]
  rw [hshape]
  exact hasTwoFrac_of_shape _ b1 b2 hA hb1 hb2

/-! ## C2: computeStatistics -/

/-- When every record carries a `price` field, the reduce loop succeeds
and equals the left fold of the per-record ratios. -/
theorem sumRatios_ok (l : List Record) (h : ∀ r ∈ l, r.price.isSome) :
    ∀ acc, sumRatios l acc = .ok (l.foldl (fun a r => jsAdd a (ratioOf r)) acc) := by
  induction l with
  | nil =>
    intro acc
    rfl
  | cons r rs ih =>
    intro acc
    obtain ⟨s, hs⟩ := Option.isSome_iff_exists.mp (h r (by simp))
    have hratio : jsDiv (JsNum.fin (parsePrice s)) (JsNum.fin ((roomsOf r : ℤ) : ℚ)) =
        ratioOf r := by
      simp [ratioOf, hs]
    simp only [sumRatios, hs, parsePriceJS]
    rw [List.foldl_cons, ih (fun x hx => h x (by simp [hx])), hratio]

/-- `computeStatistics` on a subset whose records all have a `price`
field. -/
theorem computeStatistics_eq (subset : List Record)
    (h : ∀ r ∈ subset, r.price.isSome) :
    computeStatistics subset =
      .ok ⟨subset.length,
        toFixedJs (jsDiv ((subset.map ratioOf).foldl jsAdd (JsNum.fin 0))
          (JsNum.fin (subset.length : ℚ)))⟩ := by
  rw [computeStatistics, sumRatios_ok subset h (JsNum.fin 0), ← List.foldl_map]

/-- A fold of `jsAdd` over finite values from a finite start is finite. -/
theorem foldl_jsAdd_fin (l : List JsNum) (h : ∀ x ∈ l, ∃ q : ℚ, x = JsNum.fin q) :
    ∀ p : ℚ, ∃ s : ℚ, l.foldl jsAdd (JsNum.fin p) = JsNum.fin s := by
  induction l with
  | nil =>
    intro p
    exact ⟨p, rfl⟩
  | cons x xs ih =>
    intro p
    obtain ⟨q, hq⟩ := h x (by simp)
    rw [List.foldl_cons, hq]
    exact ih (fun y hy => h y (by simp [hy])) (qadd p q)

/-- C2 (amended): for a subset whose records all carry a `price` field,
`computeStatistics` returns `totalListings = subset.length` and
`averagePricePerRoom` equal to `toFixed(2)` of the mean of the per-record
ratios `price / rooms` (sum of the individual ratios divided by the count,
not total price over total rooms); on the empty subset the result is
`{totalListings: 0, averagePricePerRoom: "NaN"}`.  When the subset is
nonempty and no record's rooms value is zero the mean is finite (a zero
rooms value instead makes it non-finite, rendered "Infinity" /
"-Infinity" / "NaN"), and whenever the mean is finite with magnitude
below 10^21 the string has exactly two fractional digits; a finite mean of
magnitude at least 10^21 is rendered in exponential `ToString` form
instead, e.g. a single listing of price 10^22 with one bedroom yields
"1e+22". -/
theorem computeStatistics_spec (subset : List Record)
    (h : ∀ r ∈ subset, r.price.isSome) :
    computeStatistics subset =
      .ok ⟨subset.length,
        toFixedJs (jsDiv ((subset.map ratioOf).foldl jsAdd (JsNum.fin 0))
          (JsNum.fin (subset.length : ℚ)))⟩ ∧
    computeStatistics [] = .ok ⟨0, "NaN"⟩ ∧
    ((subset ≠ [] ∧ ∀ r ∈ subset, roomsOf r ≠ 0) →
      ∃ qm : ℚ, jsDiv ((subset.map ratioOf).foldl jsAdd (JsNum.fin 0))
        (JsNum.fin (subset.length : ℚ)) = JsNum.fin qm) ∧
    (finBelowCutoff (jsDiv ((subset.map ratioOf).foldl jsAdd (JsNum.fin 0))
        (JsNum.fin (subset.length : ℚ))) = true →
      hasTwoFracDigits
        (toFixedJs (jsDiv ((subset.map ratioOf).foldl jsAdd (JsNum.fin 0))
          (JsNum.fin (subset.length : ℚ)))) = true) ∧
    computeStatistics [recBigPrice] = .ok ⟨1, "1e+22"⟩ := by
  refine ⟨computeStatistics_eq subset h, by decide, ?_, ?_, by decide⟩
  · rintro ⟨hne, hrooms⟩
    have hfin : ∀ x ∈ subset.map ratioOf, ∃ q : ℚ, x = JsNum.fin q := by
      intro x hx
      obtain ⟨r, hr, rfl⟩ := List.mem_map.mp hx
      have hz : ((roomsOf r : ℤ) : ℚ) ≠ 0 := by
        simpa using hrooms r hr
      exact ⟨qdiv (parsePrice (r.price.getD "")) ((roomsOf r : ℤ) : ℚ),
        by simp [ratioOf, jsDiv, hz]⟩
    obtain ⟨s, hsum⟩ := foldl_jsAdd_fin (subset.map ratioOf) hfin 0
    have hlen : ((subset.length : ℕ) : ℚ) ≠ 0 := by
      simpa using List.length_pos.mpr hne |>.ne'
    rw [hsum]
    exact ⟨qdiv s (subset.length : ℚ), by simp [jsDiv, hlen]⟩
  · intro hcut
    cases havg : jsDiv ((subset.map ratioOf).foldl jsAdd (JsNum.fin 0))
        (JsNum.fin (subset.length : ℚ)) with
    | nan =>
      rw [havg] at hcut
      simp [finBelowCutoff] at hcut
    | inf =>
      rw [havg] at hcut
      simp [finBelowCutoff] at hcut
    | ninf =>
      rw [havg] at hcut
      simp [finBelowCutoff] at hcut
    | fin qm =>
      rw [havg] at hcut
      simp only [finBelowCutoff, decide_eq_true_eq] at hcut
      exact hasTwoFracDigits_toFixed2Q qm hcut

/-- Witness for C2 (amended): the theorem instantiated on the singleton
subset `[recB]`, with all hypotheses discharged concretely. -/
theorem computeStatistics_spec_witness :
    (∀ r ∈ [recB], r.price.isSome) ∧
    computeStatistics [recB] =
      .ok ⟨[recB].length,
        toFixedJs (jsDiv (([recB].map ratioOf).foldl jsAdd (JsNum.fin 0))
          (JsNum.fin ([recB].length : ℚ)))⟩ ∧
    (∃ qm : ℚ, jsDiv (([recB].map ratioOf).foldl jsAdd (JsNum.fin 0))
      (JsNum.fin ([recB].length : ℚ)) = JsNum.fin qm) ∧
    hasTwoFracDigits
      (toFixedJs (jsDiv (([recB].map ratioOf).foldl jsAdd (JsNum.fin 0))
        (JsNum.fin ([recB].length : ℚ)))) = true :=
  ⟨by decide, (computeStatistics_spec [recB] (by decide)).1,
    (computeStatistics_spec [recB] (by decide)).2.2.1 ⟨by decide, by decide⟩,
    (computeStatistics_spec [recB] (by decide)).2.2.2.1 (by decide)⟩

/-- C2 counterexample: a record whose bedrooms text is "0" makes the mean
non-finite; `computeStatistics` returns the string "Infinity", which does
not have two fractional digits. -/
theorem computeStatistics_counterexample :
    computeStatistics [recZeroRooms] = .ok ⟨1, "Infinity"⟩ ∧
    hasTwoFracDigits "Infinity" = false := by
  exact ⟨by decide, by decide⟩

/-! ## C4: coercion fallback vs throwing -/

/-- C4 (amended): for records that carry a `price` field the coercion of
price, bedrooms and review score never raises — missing or unparseable
bedrooms / review-score text and unparseable price text always resolve to
the documented fallbacks — but a record with no `price` key at all throws
a TypeError inside `parsePrice` (on `undefined.replace`). -/
theorem coercion_fallback (records : List Record) (c : Criteria)
    (h : ∀ r ∈ records, r.price.isSome) :
    (∃ l, filterListings records c = .ok l) ∧
    (∃ st, computeStatistics records = .ok st) ∧
    parsePriceJS none = .error () ∧
    (∀ d : ℤ, parseNumber none d = d) ∧
    (∀ s : String, parseFloatCore (cleanPrice s) = none → parsePrice s = 0) := by
  refine ⟨filterListings_isOk records c h, ⟨_, computeStatistics_eq records h⟩,
    rfl, fun d => by rw [parseNumber, show parseIntJS none = none from by decide]; rfl, ?_⟩
  intro s hs
  simp [parsePrice, hs]

/-- Witness for C4 (amended). -/
theorem coercion_fallback_witness :
    (∀ r ∈ [recA, recB], r.price.isSome) ∧
    (∃ l, filterListings [recA, recB] crit6 = .ok l) ∧
    (∃ st, computeStatistics [recA, recB] = .ok st) :=
  ⟨by decide, (coercion_fallback [recA, recB] crit6 (by decide)).1,
    (coercion_fallback [recA, recB] crit6 (by decide)).2.1⟩

/-- C4 counterexample: on a record with no `price` key both filtering and
statistics throw (modelled `Except.error`) instead of resolving to a
fallback. -/
theorem coercion_counterexample :
    filterListings [recNoPrice] crit6 = .error () ∧
    computeStatistics [recNoPrice] = .error () ∧
    parsePriceJS none = .error () := by
  exact ⟨by decide, by decide, rfl⟩

/-! ## C1: host ranking order -/

/-- Filtering a stable insertion step by an exact count: the inserted
element lands in front of the equal-count block. -/
theorem filter_orderedInsert (e : HostRankingEntry) (l : List HostRankingEntry) (c : ℕ) :
    (List.orderedInsert hostDescOrder e l).filter (fun a => a.listingsCount == c) =
      (if e.listingsCount = c
        then e :: l.filter (fun a => a.listingsCount == c)
        else l.filter (fun a => a.listingsCount == c)) := by
  induction l with
  | nil =>
    by_cases he : e.listingsCount = c <;>
      simp [List.orderedInsert, List.filter_cons, he]
  | cons y ys ih =>
    rw [List.orderedInsert]
    by_cases hr : hostDescOrder e y
    · rw [if_pos hr]
      by_cases he : e.listingsCount = c <;> by_cases hy : y.listingsCount = c <;>
        simp [List.filter_cons, he, hy]
    · rw [if_neg hr, List.filter_cons]
      have hlt : e.listingsCount < y.listingsCount := by
        unfold hostDescOrder at hr
        omega
      by_cases hy : y.listingsCount = c
      · have he : ¬ (e.listingsCount = c) := by omega
        simp [hy, he, ih]
      · simp [hy, ih]

/-- Stability of the descending sort, phrased per count class: the
entries of any fixed count keep their pre-sort order. -/
theorem filter_insertionSort_count (l : List HostRankingEntry) (c : ℕ) :
    (List.insertionSort hostDescOrder l).filter (fun a => a.listingsCount == c) =
      l.filter (fun a => a.listingsCount == c) := by
  induction l with
  | nil => rfl
  | cons x xs ih =>
    rw [List.insertionSort, filter_orderedInsert, List.filter_cons]
    by_cases hx : x.listingsCount = c <;> simp [hx, ih]

/-- When no key of the grouping object is a canonical array index,
`Object.values` returns the groups in insertion order. -/
theorem objectValues_of_no_index (m : List (String × HostRankingEntry))
    (h : ∀ p ∈ m, isCanonicalIndex p.1 = false) :
    objectValues m = m.map Prod.snd := by
  unfold objectValues
  have h1 : m.filter (fun p => isCanonicalIndex p.1) = [] := by
    rw [List.filter_eq_nil_iff]
    intro p hp
    simp [h p hp]
  have h2 : m.filter (fun p => !(isCanonicalIndex p.1)) = m := by
    rw [List.filter_eq_self]
    intro p hp
    simp [h p hp]
  rw [h1, h2]
  rfl

/-- Every key of the grouping accumulator comes from a record of the
subset (or was already in the starting accumulator). -/
theorem foldl_hostStep_keys (subset : List Record) :
    ∀ acc p, p ∈ subset.foldl hostStep acc →
      (∃ q ∈ acc, p.1 = q.1) ∨ ∃ r ∈ subset, p.1 = jsKey r.host_id := by
  induction subset with
  | nil =>
    intro acc p hp
    exact Or.inl ⟨p, hp, rfl⟩
  | cons r rs ih =>
    intro acc p hp
    rw [List.foldl_cons] at hp
    rcases ih (hostStep acc r) p hp with ⟨q, hq, hpq⟩ | ⟨r', hr', h⟩
    · unfold hostStep at hq
      by_cases hproto : jsKey r.host_id ∈ protoKeys
      · rw [if_pos hproto] at hq
        exact Or.inl ⟨q, hq, hpq⟩
      · rw [if_neg hproto] at hq
        by_cases hany : acc.any (fun p2 => p2.1 == jsKey r.host_id)
        · rw [if_pos hany] at hq
          obtain ⟨q0, hq0, hq0e⟩ := List.mem_map.mp hq
          refine Or.inl ⟨q0, hq0, ?_⟩
          rw [hpq, ← hq0e]
          by_cases hk : q0.1 == jsKey r.host_id <;> simp [hk]
        · rw [if_neg hany] at hq
          rcases List.mem_append.mp hq with h1 | h1
          · exact Or.inl ⟨q, h1, hpq⟩
          · simp at h1
            refine Or.inr ⟨r, by simp, ?_⟩
            rw [hpq, h1]
    · exact Or.inr ⟨r', by simp [hr'], h⟩

/-- Keys of `buildHostMap` are the `jsKey`s of the subset's hosts. -/
theorem buildHostMap_keys (subset : List Record) :
    ∀ p ∈ buildHostMap subset, ∃ r ∈ subset, p.1 = jsKey r.host_id := by
  intro p hp
  rcases foldl_hostStep_keys subset [] p hp with ⟨q, hq, _⟩ | h
  · simp at hq
  · exact h

/-- C1 (amended): the ranking is sorted descending by `listingsCount`
(adjacent pairs), and groups with equal counts appear in the order
`Object.values` enumerates the grouping object — canonical array-index
`host_id` keys in ascending numeric order first, then the remaining keys
in first-encounter order.  In particular, when no `host_id` is an
array-index-like string, ties do follow first-encounter order. -/
theorem computeHostRanking_spec (subset : List Record) :
    List.Chain' (fun a b => b.listingsCount ≤ a.listingsCount)
      (computeHostRanking subset) ∧
    (∀ c : ℕ, (computeHostRanking subset).filter (fun a => a.listingsCount == c) =
      (objectValues (buildHostMap subset)).filter (fun a => a.listingsCount == c)) ∧
    ((∀ r ∈ subset, isCanonicalIndex (jsKey r.host_id) = false) →
      ∀ c : ℕ, (computeHostRanking subset).filter (fun a => a.listingsCount == c) =
        ((buildHostMap subset).map Prod.snd).filter (fun a => a.listingsCount == c)) := by
  refine ⟨?_, ?_, ?_⟩
  · exact List.Pairwise.chain'
      (List.sorted_insertionSort hostDescOrder (objectValues (buildHostMap subset)))
  · intro c
    exact filter_insertionSort_count _ c
  · intro hidx c
    have hkeys : ∀ p ∈ buildHostMap subset, isCanonicalIndex p.1 = false := by
      intro p hp
      obtain ⟨r, hr, hpr⟩ := buildHostMap_keys subset p hp
      rw [hpr]
      exact hidx r hr
    calc (computeHostRanking subset).filter (fun a => a.listingsCount == c) =
        (objectValues (buildHostMap subset)).filter (fun a => a.listingsCount == c) :=
          filter_insertionSort_count _ c
      _ = ((buildHostMap subset).map Prod.snd).filter (fun a => a.listingsCount == c) := by
          rw [objectValues_of_no_index _ hkeys]

/-- C1 counterexample: with the numeric-string hosts "2" then "1" (equal
counts), `Object.values` enumerates the array-index keys in ascending
numeric order, so the ranking lists host "1" before the first-encountered
host "2" — first-seen order is NOT preserved. -/
theorem computeHostRanking_counterexample :
    computeHostRanking [recHost2, recHost1] =
      [⟨some "1", some "Ann", 1⟩, ⟨some "2", some "Bob", 1⟩] ∧
    [recHost2, recHost1].map Record.host_id = [some "2", some "1"] ∧
    computeHostRanking [recHost2, recHost1] ≠
      [⟨some "2", some "Bob", 1⟩, ⟨some "1", some "Ann", 1⟩] := by
  exact ⟨by decide, by decide, by decide⟩

/-- Witness for C1 (amended): the non-array-index tie-order conjunct
instantiated on Scenario A's records (host key "h1"). -/
theorem computeHostRanking_spec_witness :
    (∀ r ∈ [recA, recB], isCanonicalIndex (jsKey r.host_id) = false) ∧
    (computeHostRanking [recA, recB]).filter (fun a => a.listingsCount == 2) =
      ((buildHostMap [recA, recB]).map Prod.snd).filter
        (fun a => a.listingsCount == 2) :=
  ⟨by decide, (computeHostRanking_spec [recA, recB]).2.2 (by decide) 2⟩

/-! ## C9 / C10: handler-state operations -/

/-- A successful filter run returns an in-order subsequence of the data
(built from the very same record values). -/
theorem filterListings_sublist (data : List Record) (c : Criteria) :
    ∀ l, filterListings data c = .ok l → l.Sublist data := by
  induction data with
  | nil =>
    intro l h
    injection h with h
    subst h
    exact List.Sublist.refl []
  | cons r rs ih =>
    intro l h
    rw [filterListings] at h
    cases hcb : filterCallback c r with
    | error e =>
      rw [hcb] at h
      cases h
    | ok b =>
      rw [hcb] at h
      cases hrec : filterListings rs c with
      | error e =>
        rw [hrec] at h
        cases h
      | ok rest =>
        rw [hrec] at h
        injection h with h
        subst h
        by_cases hb : b
        · rw [if_pos hb]
          exact (ih rest hrec).cons₂ r
        · rw [if_neg hb]
          exact (ih rest hrec).cons r

/-- C9: each derived-state operation writes only its own field of the
handler state: a successful `filterListings` changes only `filteredData`
(and the new subset consists of the untouched loaded record values, as a
sublist of `data`), a successful `computeStatistics` changes only
`statistics`, and `computeHostRanking` changes only `hostRanking`. -/
theorem frame_ops :
    (∀ (c : Criteria) (st st' : HandlerState), filterListingsOp c st = .ok st' →
      st'.data = st.data ∧ st'.statistics = st.statistics ∧
      st'.hostRanking = st.hostRanking ∧ st'.filteredData.Sublist st.data) ∧
    (∀ st st' : HandlerState, computeStatisticsOp st = .ok st' →
      st'.data = st.data ∧ st'.filteredData = st.filteredData ∧
      st'.hostRanking = st.hostRanking) ∧
    (∀ st : HandlerState,
      (computeHostRankingOp st).data = st.data ∧
      (computeHostRankingOp st).filteredData = st.filteredData ∧
      (computeHostRankingOp st).statistics = st.statistics) := by
  refine ⟨?_, ?_, ?_⟩
  · intro c st st' h
    rw [filterListingsOp] at h
    cases hf : filterListings st.data c with
    | error e =>
      rw [hf] at h
      cases h
    | ok l =>
      rw [hf] at h
      injection h with h
      subst h
      exact ⟨rfl, rfl, rfl, filterListings_sublist st.data c l hf⟩
  · intro st st' h
    rw [computeStatisticsOp] at h
    cases hf : computeStatistics st.filteredData with
    | error e =>
      rw [hf] at h
      cases h
    | ok s =>
      rw [hf] at h
      injection h with h
      subst h
      exact ⟨rfl, rfl, rfl⟩
  · intro st
    exact ⟨rfl, rfl, rfl⟩

/-- Witness for C9: concrete successful runs of all three operations. -/
theorem frame_ops_witness :
    (filterListingsOp crit6 st0 = .ok st1 ∧
      st1.data = st0.data ∧ st1.statistics = st0.statistics ∧
      st1.hostRanking = st0.hostRanking ∧ st1.filteredData.Sublist st0.data) ∧
    (computeStatisticsOp st1 = .ok ⟨[recA, recB], [recB], some ⟨1, "50.00"⟩, []⟩ ∧
      ((⟨[recA, recB], [recB], some ⟨1, "50.00"⟩, []⟩ : HandlerState).data = st1.data ∧
        (⟨[recA, recB], [recB], some ⟨1, "50.00"⟩, []⟩ : HandlerState).filteredData =
          st1.filteredData ∧
        (⟨[recA, recB], [recB], some ⟨1, "50.00"⟩, []⟩ : HandlerState).hostRanking =
          st1.hostRanking)) ∧
    ((computeHostRankingOp st1).data = st1.data ∧
      (computeHostRankingOp st1).filteredData = st1.filteredData ∧
      (computeHostRankingOp st1).statistics = st1.statistics) :=
  ⟨⟨by decide, frame_ops.1 crit6 st0 st1 (by decide)⟩,
   ⟨by decide, frame_ops.2.1 st1 ⟨[recA, recB], [recB], some ⟨1, "50.00"⟩, []⟩ (by decide)⟩,
   frame_ops.2.2 st1⟩

/-- C10: `filterListings` always filters from the full loaded `data`,
never from the previous subset: a successful run is idempotent, and the
resulting `filteredData` depends only on `data` and the criteria, not on
any earlier filtering (nor on the other derived fields). -/
theorem filter_from_full_data :
    (∀ (c : Criteria) (st st' : HandlerState), filterListingsOp c st = .ok st' →
      filterListingsOp c st' = .ok st') ∧
    (∀ (c : Criteria) (st t : HandlerState), st.data = t.data →
      Except.map HandlerState.filteredData (filterListingsOp c st) =
        Except.map HandlerState.filteredData (filterListingsOp c t)) := by
  constructor
  · intro c st st' h
    rw [filterListingsOp] at h
    cases hf : filterListings st.data c with
    | error e =>
      rw [hf] at h
      cases h
    | ok l =>
      rw [hf] at h
      injection h with h
      subst h
      rw [filterListingsOp]
      have hdata : (({ st with filteredData := l } : HandlerState)).data = st.data := rfl
      rw [hdata, hf]
  · intro c st t h
    rw [filterListingsOp, filterListingsOp, h]
    cases filterListings t.data c <;> rfl

/-- Witness for C10: idempotence and data-only dependence on Scenario A's
state. -/
theorem filter_from_full_data_witness :
    (filterListingsOp crit6 st0 = .ok st1 ∧ filterListingsOp crit6 st1 = .ok st1) ∧
    (st0.data = stAlt.data ∧
      Except.map HandlerState.filteredData (filterListingsOp crit6 st0) =
        Except.map HandlerState.filteredData (filterListingsOp crit6 stAlt)) :=
  ⟨⟨by decide, filter_from_full_data.1 crit6 st0 st1 (by decide)⟩,
   ⟨by decide, filter_from_full_data.2 crit6 st0 stAlt (by decide)⟩⟩
